import Mathlib

/-!
Verification development for the `cpx` CI orchestrator
(`internal/app/cli/ci.go`).

Go byte strings are modelled as `List Nat` (one entry per byte), Go maps
as association lists (the list order models the unspecified map iteration
order), and the effectful parts of the code (filesystem reads, `docker`
subprocess invocations, config load/save) as explicit environment records
of pure functions.  SHA-256 is implemented in full over `List Nat` with
arithmetic modulo 2^32.
-/

/-- Byte strings: the model of Go `string` / `[]byte` values. -/
abbrev Str := List Nat

/-- Literal helper: the bytes of an ASCII string literal. -/
def str (s : String) : Str := s.data.map Char.toNat

/-! ## SHA-256 (crypto/sha256), over byte lists -/

/-- Truncation to a 32-bit word. -/
def w32 (n : Nat) : Nat := n % 4294967296

/-- 32-bit right rotation (arguments are 32-bit words). -/
def rotr32 (x n : Nat) : Nat := w32 ((x >>> n) ||| (x <<< (32 - n)))

/-- SHA-256 big sigma 0. -/
def bigSigma0 (x : Nat) : Nat := rotr32 x 2 ^^^ rotr32 x 13 ^^^ rotr32 x 22

/-- SHA-256 big sigma 1. -/
def bigSigma1 (x : Nat) : Nat := rotr32 x 6 ^^^ rotr32 x 11 ^^^ rotr32 x 25

/-- SHA-256 small sigma 0. -/
def smallSigma0 (x : Nat) : Nat := rotr32 x 7 ^^^ rotr32 x 18 ^^^ (x >>> 3)

/-- SHA-256 small sigma 1. -/
def smallSigma1 (x : Nat) : Nat := rotr32 x 17 ^^^ rotr32 x 19 ^^^ (x >>> 10)

/-- SHA-256 choice function. -/
def sha2Ch (x y z : Nat) : Nat := (x &&& y) ^^^ ((x ^^^ 4294967295) &&& z)

/-- SHA-256 majority function. -/
def sha2Maj (x y z : Nat) : Nat := (x &&& y) ^^^ (x &&& z) ^^^ (y &&& z)

/-- The 64 SHA-256 round constants. -/
def sha2K : List Nat :=
  [1116352408, 1899447441, 3049323471, 3921009573, 961987163,
   1508970993, 2453635748, 2870763221, 3624381080, 310598401,
   607225278, 1426881987, 1925078388, 2162078206, 2614888103,
   3248222580, 3835390401, 4022224774, 264347078, 604807628,
   770255983, 1249150122, 1555081692, 1996064986, 2554220882,
   2821834349, 2952996808, 3210313671, 3336571891, 3584528711,
   113926993, 338241895, 666307205, 773529912, 1294757372,
   1396182291, 1695183700, 1986661051, 2177026350, 2456956037,
   2730485921, 2820302411, 3259730800, 3345764771, 3516065817,
   3600352804, 4094571909, 275423344, 430227734, 506948616,
   659060556, 883997877, 958139571, 1322822218, 1537002063,
   1747873779, 1955562222, 2024104815, 2227730452, 2361852424,
   2428436474, 2756734187, 3204031479, 3329325298]

/-- SHA-256 message padding: append 0x80, zeros, and the 64-bit
big-endian bit length, to a multiple of 64 bytes. -/
def sha2Pad (msg : List Nat) : List Nat :=
  let len := msg.length
  let bitLen := (8 * len) % 18446744073709551616
  msg ++ [128] ++ List.replicate ((119 - len % 64) % 64) 0 ++
    [(bitLen >>> 56) % 256, (bitLen >>> 48) % 256, (bitLen >>> 40) % 256, (bitLen >>> 32) % 256,
     (bitLen >>> 24) % 256, (bitLen >>> 16) % 256, (bitLen >>> 8) % 256, bitLen % 256]

/-- Split a byte list into 64-byte chunks. -/
def sha2Chunks (l : List Nat) : List (List Nat) :=
  if h : l = [] then [] else l.take 64 :: sha2Chunks (l.drop 64)
termination_by l.length
decreasing_by
  simp only [List.length_drop]
  have := List.length_pos.mpr h
  omega

/-- Group bytes into 32-bit big-endian words. -/
def sha2Words : List Nat → List Nat
  | a :: b :: c :: d :: rest => (((a * 256 + b) * 256 + c) * 256 + d) :: sha2Words rest
  | _ => []

/-- Extend the 16-word message schedule by `n` further words. -/
def sha2Extend : Nat → List Nat → List Nat
  | 0, ws => ws
  | n + 1, ws =>
    sha2Extend n (ws ++ [w32 (smallSigma1 (ws.getD (ws.length - 2) 0) +
      ws.getD (ws.length - 7) 0 + smallSigma0 (ws.getD (ws.length - 15) 0) +
      ws.getD (ws.length - 16) 0)])

/-- The eight 32-bit words of SHA-256 working state. -/
structure Sha2State where
  a : Nat
  b : Nat
  c : Nat
  d : Nat
  e : Nat
  f : Nat
  g : Nat
  h : Nat

/-- Initial SHA-256 state. -/
def sha2Init : Sha2State :=
  ⟨1779033703, 3144134277, 1013904242, 2773480762,
   1359893119, 2600822924, 528734635, 1541459225⟩

/-- One SHA-256 compression round with constant `k` and schedule word `w`. -/
def sha2Round (s : Sha2State) (k w : Nat) : Sha2State :=
  let t1 := w32 (s.h + bigSigma1 s.e + sha2Ch s.e s.f s.g + k + w)
  let t2 := w32 (bigSigma0 s.a + sha2Maj s.a s.b s.c)
  ⟨w32 (t1 + t2), s.a, s.b, s.c, w32 (s.d + t1), s.e, s.f, s.g⟩

/-- Compress one 64-byte chunk into the running state. -/
def sha2Compress (s : Sha2State) (chunk : List Nat) : Sha2State :=
  let ws := sha2Extend 48 (sha2Words chunk)
  let t := (sha2K.zip ws).foldl (fun st kw => sha2Round st kw.1 kw.2) s
  ⟨w32 (s.a + t.a), w32 (s.b + t.b), w32 (s.c + t.c), w32 (s.d + t.d),
   w32 (s.e + t.e), w32 (s.f + t.f), w32 (s.g + t.g), w32 (s.h + t.h)⟩

/-- Big-endian bytes of a 32-bit word. -/
def wordBytes (w : Nat) : List Nat :=
  [w / 16777216 % 256, w / 65536 % 256, w / 256 % 256, w % 256]

/-- SHA-256 digest (32 bytes) of a byte list. -/
def sha256 (msg : List Nat) : List Nat :=
  let s := (sha2Chunks (sha2Pad msg)).foldl sha2Compress sha2Init
  wordBytes s.a ++ wordBytes s.b ++ wordBytes s.c ++ wordBytes s.d ++
    wordBytes s.e ++ wordBytes s.f ++ wordBytes s.g ++ wordBytes s.h

/-! ## hashDockerBuildConfig (ci.go lines 515-546) -/

/-- One lowercase hex digit byte (`hex.EncodeToString` alphabet). -/
def hexDigit (n : Nat) : Nat := if n < 10 then 48 + n else 87 + n

/-- Lowercase hex encoding of a byte list, as ASCII bytes. -/
def hexEncode : List Nat → Str
  | [] => []
  | b :: rest => hexDigit (b / 16 % 16) :: hexDigit (b % 16) :: hexEncode rest

/-- Association-list lookup modelling Go map indexing `args[k]`
(absent keys yield the zero value, the empty string). -/
def lookupArg (k : Str) : List (Str × Str) → Str
  | [] => []
  | (k2, v) :: rest => if k2 = k then v else lookupArg k rest

/-- Byte-wise lexicographic comparison of Go strings (`s <= t` in
`sort.Strings` order). -/
def byteLe : Str → Str → Bool
  | [], _ => true
  | _ :: _, [] => false
  | a :: as, b :: bs => if a < b then true else if b < a then false else byteLe as bs

/-- The `sort.Strings` order as a binary relation. -/
def keyLe (a b : Str) : Prop := byteLe a b = true

instance : DecidableRel keyLe := fun a b => by unfold keyLe; infer_instance

/-- Model of `sort.Strings`: sort a list of byte strings ascending. -/
def sortKeys (ks : List Str) : List Str := List.insertionSort keyLe ks

/-- Serialize the (sorted) keys of a build-arg map: for each key,
`key`, `=` (61), the value, `\n` (10). -/
def renderArgs (args : List (Str × Str)) : List Str → Str
  | [] => []
  | k :: ks => k ++ [61] ++ lookupArg k args ++ [10] ++ renderArgs args ks

/-- The build-arg serialization written into the hash: nothing when the
map is empty, otherwise the sorted key=value lines (ci.go lines 529-542). -/
def serializeArgs (args : List (Str × Str)) : Str :=
  if args = [] then [] else renderArgs args (sortKeys (args.map Prod.fst))

/-- The full byte stream hashed by `hashDockerBuildConfig`: the
dockerfile content followed by the serialized build args. -/
def hashInput (content : Str) (args : List (Str × Str)) : Str :=
  content ++ serializeArgs args

/-- Model of `hashDockerBuildConfig` (ci.go lines 515-546) on the dockerfile
content bytes: first 12 hex characters of the SHA-256 of the content
followed by the sorted `k=v\n` build-arg lines.  (The Go function reads
the content from the dockerfile path itself; the read is modelled at the
call site in `handleBuildMode`.) -/
def hashDockerBuildConfig (content : Str) (args : List (Str × Str)) : Str :=
  (hexEncode (sha256 (hashInput content args))).take 12

/-! ## Configuration data model (pkg/config values used by ci.go) -/

/-- Model of `config.DockerBuildConfig`: build context, dockerfile path and
build-arg map. -/
structure DockerBuildConfig where
  context : Str
  dockerfile : Str
  args : List (Str × Str)

/-- Model of `config.DockerConfig`: mode, image reference/label, platform,
pull policy and optional build sub-descriptor. -/
structure DockerConfig where
  mode : Str
  image : Str
  platform : Str
  pullPolicy : Str
  build : Option DockerBuildConfig

/-- Modelled from the spec: `config.CITarget` (the fields ci.go reads).
the `config` package is not under src/; per the spec a target carries a
unique `name`, a `runner`, an optional container descriptor and an
`active` flag, targets defaulting to active when the flag is absent. -/
structure CITarget where
  name : Str
  runner : Str
  docker : Option DockerConfig
  active : Option Bool

/-- Modelled from the spec: `config.CITarget.IsActive` — targets default
active; only an explicit inactive marking turns a target off. -/
def CITarget.IsActive (t : CITarget) : Bool := t.active.getD true

/-- Model of `config.CIConfig` (the fields ci.go reads: the ordered target list
and the output root).  The global build defaults are passed through to
the build subprocesses unchanged and are not modelled. -/
structure CIConfig where
  targets : List CITarget
  output : Str

/-! ## Path resolution (filepath.IsAbs / filepath.Join on clean paths) -/

/-- Model of `filepath.IsAbs` on Unix: the path starts with `/` (byte 47). -/
def isAbsPath (p : Str) : Bool :=
  match p with
  | [] => false
  | b :: _ => b == 47

/-- Model of `filepath.Join(root, p)` for clean arguments. -/
def joinPath (root p : Str) : Str := root ++ [47] ++ p

/-- Dockerfile path resolution in `handleBuildMode` (ci.go lines
645-648): relative paths are joined onto the project root. -/
def resolvePath (projectRoot p : Str) : Str :=
  if isAbsPath p then p else joinPath projectRoot p

/-! ## Docker environment: the outcomes of the external `docker` and
filesystem calls, as pure functions -/

/-- Outcomes of the external invocations made while resolving an image:
`imagePresent img` is whether `docker images -q img` printed anything,
`pullOk img` whether `docker pull` succeeds, `fileContents path` the
bytes of the file at `path` (none: unreadable/absent), `buildxOk tag`
whether `docker buildx build -t tag` succeeds and `legacyBuildOk tag`
whether the fallback `docker build -t tag` succeeds. -/
structure DockerEnv where
  imagePresent : Str → Bool
  pullOk : Str → Bool
  fileContents : Str → Option Str
  buildxOk : Str → Bool
  legacyBuildOk : Str → Bool

/-- Result of `handlePullMode` together with whether a `docker pull`
was invoked. -/
structure PullOutcome where
  result : Except Str Str
  pullAttempted : Bool

/-- The tail of `handlePullMode` (ci.go lines 596-620): the rebuild
override of `shouldPull`, then the pull invocation. -/
def pullFinish (env : DockerEnv) (image : Str) (rebuild shouldPull0 : Bool) : PullOutcome :=
  let shouldPull := if rebuild then true else shouldPull0
  if shouldPull then
    if env.pullOk image then ⟨.ok image, true⟩
    else ⟨.error (str "docker pull failed"), true⟩
  else ⟨.ok image, false⟩

/-- Model of `handlePullMode` (ci.go lines 567-621): decide from the pull policy
and local presence whether to pull, with `rebuild` forcing a pull. -/
def handlePullMode (env : DockerEnv) (d : DockerConfig) (rebuild : Bool) : PullOutcome :=
  let imageName := d.image
  let imageExists := env.imagePresent imageName
  if d.pullPolicy = str "always" then pullFinish env imageName rebuild true
  else if d.pullPolicy = str "never" then
    if !imageExists then
      ⟨.error (str "image " ++ imageName ++ str " not found locally and pullPolicy is never"), false⟩
    else pullFinish env imageName rebuild false
  else if d.pullPolicy = str "ifNotPresent" ∨ d.pullPolicy = [] then
    pullFinish env imageName rebuild (!imageExists)
  else ⟨.error (str "unknown pullPolicy: " ++ d.pullPolicy), false⟩

/-- Model of `handleLocalMode` (ci.go lines 623-636): verify the image exists
locally, no fallback. -/
def handleLocalMode (env : DockerEnv) (d : DockerConfig) : Except Str Str :=
  if env.imagePresent d.image then .ok d.image
  else .error (str "local image " ++ d.image ++ str " not found")

/-- The image tag formed in build mode (ci.go line 662):
`cpx/<target-name>:<hash>`. -/
def buildImageTag (name hash : Str) : Str := str "cpx/" ++ name ++ str ":" ++ hash

/-- Result of `handleBuildMode` together with whether a `docker build`
(buildx or legacy) was invoked. -/
structure BuildOutcome where
  result : Except Str Str
  buildInvoked : Bool

/-- Model of `handleBuildMode` (ci.go lines 638-724): resolve the dockerfile,
hash content plus build args, tag `cpx/<name>:<hash>`; reuse an existing
image with that exact tag unless `rebuild`, otherwise build (buildx,
falling back to legacy `docker build`).  The `os.Stat` existence check
and the read inside `hashDockerBuildConfig` are modelled as the single
`fileContents` lookup. -/
def handleBuildMode (env : DockerEnv) (t : CITarget) (d : DockerConfig)
    (projectRoot : Str) (rebuild : Bool) : BuildOutcome :=
  match d.build with
  | none => ⟨.error (str "build configuration is required for mode: build"), false⟩
  | some b =>
    let dockerfilePath := resolvePath projectRoot b.dockerfile
    match env.fileContents dockerfilePath with
    | none => ⟨.error (str "dockerfile not found: " ++ dockerfilePath), false⟩
    | some content =>
      let hash := hashDockerBuildConfig content b.args
      let imageName := buildImageTag t.name hash
      if !rebuild && env.imagePresent imageName then ⟨.ok imageName, false⟩
      else if env.buildxOk imageName then ⟨.ok imageName, true⟩
      else if env.legacyBuildOk imageName then ⟨.ok imageName, true⟩
      else ⟨.error (str "docker build failed"), true⟩

/-- Result of `resolveDockerImage` with the effect flags of the chosen
mode handler. -/
structure ResolveOutcome where
  result : Except Str Str
  pullAttempted : Bool
  buildInvoked : Bool

/-- Model of `resolveDockerImage` (ci.go lines 548-565): dispatch on the docker
mode. -/
def resolveDockerImage (env : DockerEnv) (t : CITarget) (projectRoot : Str)
    (rebuild : Bool) : ResolveOutcome :=
  match t.docker with
  | none => ⟨.error (str "docker configuration is required for docker runner"), false, false⟩
  | some d =>
    if d.mode = str "pull" then
      let p := handlePullMode env d rebuild
      ⟨p.result, p.pullAttempted, false⟩
    else if d.mode = str "local" then ⟨handleLocalMode env d, false, false⟩
    else if d.mode = str "build" then
      let b := handleBuildMode env t d projectRoot rebuild
      ⟨b.result, false, b.buildInvoked⟩
    else ⟨.error (str "unknown docker mode: " ++ d.mode), false, false⟩

/-! ## The orchestrator: runCIBuild (ci.go lines 355-481) -/

/-- Outcomes of the remaining external calls of `runCIBuild`:
config load, directory creation, project-root discovery, and the two
build executors (which wrap `runNativeBuild` and
`runDockerBuildWithImage`, whose internals are subprocess invocations). -/
structure CIEnv where
  docker : DockerEnv
  loadCI : Except Str CIConfig
  mkdirOutputOk : Bool
  projectRoot : Except Str Str
  mkdirCacheOk : Bool
  mkdirTargetCacheOk : Str → Bool
  nativeBuild : CITarget → Except Str Unit
  dockerRunBuild : CITarget → Str → Bool → Except Str Unit

/-- The target-selection loop for an explicitly requested name (ci.go
lines 373-384): first target with that name, if any. -/
def findTarget (name : Str) : List CITarget → Option CITarget
  | [] => none
  | t :: ts => if t.name = name then some t else findTarget name ts

/-- Target selection (ci.go lines 370-403): an explicit name selects
that single target (warning when inactive, the returned Bool); no name
filters to active targets, counting the skipped inactive ones. -/
def selectTargets (cfg : CIConfig) (targetName : Str) :
    Except Str (List CITarget × Nat × Bool) :=
  if targetName ≠ [] then
    match findTarget targetName cfg.targets with
    | some t => .ok ([t], 0, !t.IsActive)
    | none => .error (str "target " ++ targetName ++ str " not found in cpx-ci.yaml")
  else
    .ok (cfg.targets.filter (fun t => t.IsActive),
      cfg.targets.countP (fun t => !t.IsActive), false)

/-- One iteration of the build loop (ci.go lines 442-474): native
targets run the native build, all others resolve a docker image and run
the docker build, each failure wrapped with the target name. -/
def targetOutcome (env : CIEnv) (projectRoot : Str) (rebuild executeAfterBuild : Bool)
    (t : CITarget) : Except Str Unit :=
  if t.runner = str "native" then
    match env.nativeBuild t with
    | .error e => .error (str "failed to build target " ++ t.name ++ str ": " ++ e)
    | .ok _ => .ok ()
  else
    match (resolveDockerImage env.docker t projectRoot rebuild).result with
    | .error e => .error (str "failed to resolve Docker image for " ++ t.name ++ str ": " ++ e)
    | .ok imageName =>
      match env.dockerRunBuild t imageName executeAfterBuild with
      | .error e => .error (str "failed to build target " ++ t.name ++ str ": " ++ e)
      | .ok _ => .ok ()

/-- The sequential build loop (ci.go lines 442-474): stop at the first
failing target; also returns the names attempted, in order. -/
def buildLoop (env : CIEnv) (projectRoot : Str) (rebuild executeAfterBuild : Bool) :
    List CITarget → Except Str Unit × List Str
  | [] => (.ok (), [])
  | t :: ts =>
    match targetOutcome env projectRoot rebuild executeAfterBuild t with
    | .error e => (.error e, [t.name])
    | .ok _ =>
      let rest := buildLoop env projectRoot rebuild executeAfterBuild ts
      (rest.1, t.name :: rest.2)

/-- Observable outcome of one `runCIBuild` call: the guard flag after
the call, whether the pipeline body ran (config loaded etc.), the
returned error, whether the inactive-target warning was printed, the
skipped-inactive count, and the names of targets attempted in order. -/
structure CIRun where
  executedAfter : Bool
  bodyRan : Bool
  result : Except Str Unit
  warnedInactive : Bool
  skippedReported : Nat
  attempted : List Str

/-- Model of `runCIBuild` (ci.go lines 355-481), as a function of the process-wide
`ciCommandExecuted` flag and the environment: guard, load config, select
targets, error when none remain, create output/cache directories, then
the sequential build loop. -/
def runCIBuild (executed : Bool) (env : CIEnv) (targetName : Str)
    (rebuild executeAfterBuild : Bool) : CIRun :=
  if executed then ⟨true, false, .ok (), false, 0, []⟩
  else
    match env.loadCI with
    | .error e => ⟨true, true, .error (str "failed to load cpx-ci.yaml: " ++ e), false, 0, []⟩
    | .ok cfg =>
      match selectTargets cfg targetName with
      | .error e => ⟨true, true, .error e, false, 0, []⟩
      | .ok (targets, skipped, warned) =>
        if targets.isEmpty then
          ⟨true, true, .error (str "no active targets defined in cpx-ci.yaml"), warned, skipped, []⟩
        else if !env.mkdirOutputOk then
          ⟨true, true, .error (str "failed to create output directory"), warned, skipped, []⟩
        else
          match env.projectRoot with
          | .error e => ⟨true, true, .error (str "failed to get project root: " ++ e), warned, skipped, []⟩
          | .ok projectRoot =>
            if !env.mkdirCacheOk then
              ⟨true, true, .error (str "failed to create cache directory"), warned, skipped, []⟩
            else if !(targets.all fun t =>
                !(t.runner = str "docker" && t.docker.isSome) || env.mkdirTargetCacheOk t.name) then
              ⟨true, true, .error (str "failed to create target cache directory"), warned, skipped, []⟩
            else
              let lp := buildLoop env projectRoot rebuild executeAfterBuild targets
              ⟨true, true, lp.1, warned, skipped, lp.2⟩

/-! ## runRemoveTarget (ci.go lines 194-231) -/

/-- The removal core of `runRemoveTarget` (ci.go lines 194-231), after
the interactive fallback resolved `args` to a list of names: split the
targets by membership of their name in the set of `args`; when nothing
matched, return nil without saving; otherwise save the remaining list.
The second component is the target list handed to `config.SaveCI`
(`none`: save never invoked, the persisted file is untouched). -/
def runRemoveTargetCore (targets : List CITarget) (args : List Str)
    (save : List CITarget → Except Str Unit) : Except Str Unit × Option (List CITarget) :=
  let newTargets := targets.filter (fun t => !decide (t.name ∈ args))
  let removed := (targets.filter (fun t => decide (t.name ∈ args))).map CITarget.name
  if removed = [] then (.ok (), none)
  else
    match save newTargets with
    | .error e => (.error e, some newTargets)
    | .ok _ => (.ok (), some newTargets)

/-- Base-256 value of a byte list (proof infrastructure: an injective
numeric encoding of bounded byte lists, used for counting arguments). -/
def natFold (l : List Nat) : Nat := l.foldr (fun d acc => d + 256 * acc) 0

/-! ## Concrete fixtures for witnesses -/

/-- A docker environment in which every image is present and every
invocation succeeds. -/
def wDockerEnv : DockerEnv :=
  ⟨fun _ => true, fun _ => true, fun _ => some (str "FROM x"), fun _ => true, fun _ => true⟩

/-- A docker environment in which no image is present locally. -/
def wDockerEnvAbsent : DockerEnv :=
  ⟨fun _ => false, fun _ => true, fun _ => some (str "FROM x"), fun _ => true, fun _ => true⟩

/-- A build sub-descriptor with an absolute dockerfile path and no args. -/
def wBuild : DockerBuildConfig := ⟨[], [47, 102], []⟩

/-- A build-mode docker descriptor. -/
def wDockerBuild : DockerConfig := ⟨str "build", str "lbl", str "linux/amd64", [], some wBuild⟩

/-- A pull-mode docker descriptor with pullPolicy never. -/
def wDockerPullNever : DockerConfig := ⟨str "pull", str "img", [], str "never", none⟩

/-- A pull-mode docker descriptor with pullPolicy always. -/
def wDockerPullAlways : DockerConfig := ⟨str "pull", str "img", [], str "always", none⟩

/-- A build-mode docker target. -/
def wTargetBuild : CITarget := ⟨str "t", str "docker", some wDockerBuild, none⟩

/-- A native-runner target. -/
def wTargetNative : CITarget := ⟨str "a", str "native", none, none⟩

/-- An explicitly inactive docker target named b. -/
def wTargetInactive : CITarget := ⟨str "b", str "docker", some wDockerPullAlways, some false⟩

/-- Simple named targets for the removal witness. -/
def wA : CITarget := ⟨str "a", str "docker", none, none⟩

/-- Second removal-witness target. -/
def wB : CITarget := ⟨str "b", str "docker", none, none⟩

/-- Third removal-witness target. -/
def wC : CITarget := ⟨str "c", str "docker", none, none⟩

/-- A save function that always succeeds. -/
def wSave : List CITarget → Except Str Unit := fun _ => .ok ()

/-- An orchestrator environment whose only target is a failing native one. -/
def wCIEnvFail : CIEnv :=
  ⟨wDockerEnv, .ok ⟨[wTargetNative], []⟩, true, .ok [], true, fun _ => true,
    fun _ => .error (str "boom"), fun _ _ _ => .ok ()⟩

/-- An orchestrator environment whose only target is inactive. -/
def wCIEnvInactive : CIEnv :=
  ⟨wDockerEnv, .ok ⟨[wTargetInactive], []⟩, true, .ok [], true, fun _ => true,
    fun _ => .ok (), fun _ _ _ => .ok ()⟩

/-! ## Helper lemmas: the byte-wise string order -/

/-- Unfolding equation of `byteLe` on two cons cells. -/
lemma byteLe_cons (a b : Nat) (as bs : Str) :
    byteLe (a :: as) (b :: bs) =
      if a < b then true else if b < a then false else byteLe as bs := rfl

/-- Totality of `byteLe`: one direction always holds. -/
lemma byteLe_total : ∀ a b : Str, byteLe a b = true ∨ byteLe b a = true := by
  intro a
  induction a with
  | nil => intro b; left; rfl
  | cons x xs ih =>
    intro b
    cases b with
    | nil => right; rfl
    | cons y ys =>
      rcases Nat.lt_trichotomy x y with h | h | h
      · left; simp [byteLe_cons, h]
      · subst h
        rcases ih ys with h2 | h2
        · left; simp [byteLe_cons, h2]
        · right; simp [byteLe_cons, h2]
      · right; simp [byteLe_cons, h]

/-- Transitivity of `byteLe`. -/
lemma byteLe_trans : ∀ a b c : Str,
    byteLe a b = true → byteLe b c = true → byteLe a c = true := by
  intro a
  induction a with
  | nil => intro b c _ _; rfl
  | cons x xs ih =>
    intro b c h1 h2
    cases b with
    | nil => simp [byteLe] at h1
    | cons y ys =>
      cases c with
      | nil => simp [byteLe] at h2
      | cons z zs =>
        rw [byteLe_cons] at h1 h2 ⊢
        by_cases hxy : x < y
        · by_cases hyz : y < z
          · simp [Nat.lt_trans hxy hyz]
          · by_cases hzy : z < y
            · simp [byteLe_cons, hyz, hzy] at h2
            · have : y = z := by omega
              subst this
              simp [hxy]
        · by_cases hyx : y < x
          · simp [hxy, hyx] at h1
          · have hxyeq : x = y := by omega
            subst hxyeq
            simp only [if_neg hxy, if_neg hyx] at h1
            by_cases hyz : x < z
            · simp [hyz]
            · by_cases hzy : z < x
              · simp [hyz, hzy] at h2
              · simp only [if_neg hyz, if_neg hzy] at h2 ⊢
                exact ih ys zs h1 h2

/-- Antisymmetry of `byteLe`. -/
lemma byteLe_antisymm : ∀ a b : Str,
    byteLe a b = true → byteLe b a = true → a = b := by
  intro a
  induction a with
  | nil =>
    intro b _ h2
    cases b with
    | nil => rfl
    | cons y ys => simp [byteLe] at h2
  | cons x xs ih =>
    intro b h1 h2
    cases b with
    | nil => simp [byteLe] at h1
    | cons y ys =>
      rw [byteLe_cons] at h1 h2
      by_cases hxy : x < y
      · have : ¬ y < x := by omega
        simp [this, hxy] at h2
      · by_cases hyx : y < x
        · simp [hxy, hyx] at h1
        · have hxyeq : x = y := by omega
          subst hxyeq
          simp only [if_neg hxy] at h1 h2
          rw [ih ys h1 h2]

instance : IsTotal Str keyLe := ⟨byteLe_total⟩

instance : IsTrans Str keyLe := ⟨byteLe_trans⟩

instance : IsAntisymm Str keyLe := ⟨byteLe_antisymm⟩

/-- Sorting is invariant under permutation of the input keys. -/
lemma sortKeys_eq_of_perm {a b : List Str} (p : a.Perm b) : sortKeys a = sortKeys b :=
  List.eq_of_perm_of_sorted
    ((List.perm_insertionSort keyLe a).trans (p.trans (List.perm_insertionSort keyLe b).symm))
    (List.sorted_insertionSort keyLe a) (List.sorted_insertionSort keyLe b)

/-! ## Helper lemmas: map lookups under permutation -/

/-- Looking a key up in two permuted association lists with no duplicate
keys gives the same value. -/
lemma perm_lookupArg {l1 l2 : List (Str × Str)} (p : l1.Perm l2) :
    (l1.map Prod.fst).Nodup → ∀ k, lookupArg k l1 = lookupArg k l2 := by
  induction p with
  | nil => intro _ k; rfl
  | cons x p ih =>
    intro nd k
    obtain ⟨kx, vx⟩ := x
    simp only [List.map_cons, List.nodup_cons] at nd
    simp only [lookupArg]
    by_cases h : kx = k
    · simp [h]
    · simp only [if_neg h]
      exact ih nd.2 k
  | swap x y l =>
    intro nd k
    obtain ⟨kx, vx⟩ := x
    obtain ⟨ky, vy⟩ := y
    simp only [List.map_cons, List.nodup_cons, List.mem_cons] at nd
    have hkk : ky ≠ kx := fun h => nd.1 (Or.inl h)
    simp only [lookupArg]
    by_cases h1 : ky = k
    · subst h1
      simp [hkk.symm]
    · by_cases h2 : kx = k
      · simp [h2, h1]
      · simp [h1, h2]
  | trans p1 p2 ih1 ih2 =>
    intro nd k
    have nd2 := (p1.map Prod.fst).nodup_iff.mp nd
    exact (ih1 nd k).trans (ih2 nd2 k)

/-- Rendering only consults the map through `lookupArg`. -/
lemma renderArgs_congr {l1 l2 : List (Str × Str)}
    (h : ∀ k, lookupArg k l1 = lookupArg k l2) :
    ∀ ks, renderArgs l1 ks = renderArgs l2 ks := by
  intro ks
  induction ks with
  | nil => rfl
  | cons k ks ih => simp [renderArgs, h k, ih]

/-- The serialized build args are invariant under permutation of the
association list (the model of map iteration order). -/
lemma serializeArgs_eq_of_perm {l1 l2 : List (Str × Str)} (p : l1.Perm l2)
    (nd : (l1.map Prod.fst).Nodup) : serializeArgs l1 = serializeArgs l2 := by
  by_cases h : l1 = []
  · subst h
    rw [p.symm.eq_nil]
  · have h2 : l2 ≠ [] := fun he => h (by rw [he] at p; exact p.eq_nil)
    unfold serializeArgs
    rw [if_neg h, if_neg h2, sortKeys_eq_of_perm (p.map Prod.fst),
      renderArgs_congr (perm_lookupArg p nd) (sortKeys (l2.map Prod.fst))]

/-! ## Helper lemmas: lookups under a single value change -/

/-- Rendering agrees on two maps that agree on every key of the list. -/
lemma renderArgs_congr_on {l1 l2 : List (Str × Str)} :
    ∀ ks : List Str, (∀ k ∈ ks, lookupArg k l1 = lookupArg k l2) →
      renderArgs l1 ks = renderArgs l2 ks := by
  intro ks
  induction ks with
  | nil => intro _; rfl
  | cons k ks ih =>
    intro h
    simp only [renderArgs]
    rw [h k (List.mem_cons_self k ks), ih (fun k2 hk2 => h k2 (List.mem_cons_of_mem k hk2))]

/-- One rendered key line, as a single block. -/
lemma renderArgs_cons (l : List (Str × Str)) (k : Str) (ks : List Str) :
    renderArgs l (k :: ks) =
      (k ++ [61] ++ lookupArg k l ++ [10]) ++ renderArgs l ks := by
  simp [renderArgs]

/-- Looking up a key sitting after `pre` when `pre` does not contain it. -/
lemma lookupArg_append (pre post : List (Str × Str)) (k v : Str)
    (hk : k ∉ pre.map Prod.fst) : lookupArg k (pre ++ (k, v) :: post) = v := by
  induction pre with
  | nil => simp [lookupArg]
  | cons p pre ih =>
    obtain ⟨k2, v2⟩ := p
    simp only [List.map_cons, List.mem_cons] at hk
    push_neg at hk
    simp only [List.cons_append, lookupArg]
    rw [if_neg (Ne.symm hk.1)]
    exact ih hk.2

/-- Changing the value stored at `k` does not change lookups of other keys. -/
lemma lookupArg_update_ne (pre post : List (Str × Str)) (k v v2 key : Str)
    (hne : key ≠ k) :
    lookupArg key (pre ++ (k, v) :: post) = lookupArg key (pre ++ (k, v2) :: post) := by
  induction pre with
  | nil => simp [lookupArg, hne.symm]
  | cons p pre ih =>
    obtain ⟨k3, v3⟩ := p
    simp only [List.cons_append, lookupArg]
    by_cases h : k3 = key
    · simp [h]
    · simp only [if_neg h]
      exact ih

/-- Rendering distinguishes two maps that differ at one key of the
(duplicate-free) key list. -/
lemma renderArgs_value_ne {l1 l2 : List (Str × Str)} {k : Str}
    (hne : lookupArg k l1 ≠ lookupArg k l2)
    (hother : ∀ key, key ≠ k → lookupArg key l1 = lookupArg key l2) :
    ∀ ks : List Str, ks.Nodup → k ∈ ks → renderArgs l1 ks ≠ renderArgs l2 ks := by
  intro ks
  induction ks with
  | nil => intro _ hk; exact absurd hk (List.not_mem_nil k)
  | cons k2 ks ih =>
    intro hnd hk
    simp only [List.nodup_cons] at hnd
    rw [renderArgs_cons, renderArgs_cons]
    rcases List.mem_cons.mp hk with heq | hmem
    · subst heq
      have hrest : renderArgs l1 ks = renderArgs l2 ks :=
        renderArgs_congr_on ks (fun key hkey => hother key (fun he => hnd.1 (he ▸ hkey)))
      intro hcontra
      rw [hrest] at hcontra
      have hblock := List.append_cancel_right hcontra
      have h1 := List.append_cancel_right hblock
      exact hne (List.append_cancel_left h1)
    · have hk2 : k2 ≠ k := fun he => hnd.1 (he ▸ hmem)
      rw [hother k2 hk2]
      intro hcontra
      exact ih hnd.2 hmem (List.append_cancel_left hcontra)

/-- Changing a single build-arg value changes the serialized args. -/
lemma serializeArgs_value_sensitive (pre post : List (Str × Str)) (k v v2 : Str)
    (nd : ((pre ++ (k, v) :: post).map Prod.fst).Nodup) (hvv : v ≠ v2) :
    serializeArgs (pre ++ (k, v) :: post) ≠ serializeArgs (pre ++ (k, v2) :: post) := by
  have hkeys : (pre ++ (k, v2) :: post).map Prod.fst = (pre ++ (k, v) :: post).map Prod.fst := by
    simp
  have hnotpre : k ∉ pre.map Prod.fst := by
    simp only [List.map_append, List.map_cons, List.nodup_append] at nd
    intro hmem
    exact nd.2.2 hmem (List.mem_cons_self k _)
  have hv1 : lookupArg k (pre ++ (k, v) :: post) = v := lookupArg_append pre post k v hnotpre
  have hv2 : lookupArg k (pre ++ (k, v2) :: post) = v2 := lookupArg_append pre post k v2 hnotpre
  have h1 : (pre ++ (k, v) :: post) ≠ [] := by simp
  have h2 : (pre ++ (k, v2) :: post) ≠ [] := by simp
  have hne : lookupArg k (pre ++ (k, v) :: post) ≠ lookupArg k (pre ++ (k, v2) :: post) := by
    rw [hv1, hv2]; exact hvv
  have hother : ∀ key, key ≠ k →
      lookupArg key (pre ++ (k, v) :: post) = lookupArg key (pre ++ (k, v2) :: post) :=
    fun key hkey => lookupArg_update_ne pre post k v v2 key hkey
  have hsnd : (sortKeys ((pre ++ (k, v) :: post).map Prod.fst)).Nodup :=
    ((List.perm_insertionSort keyLe _).nodup_iff).mpr nd
  have hkmem : k ∈ sortKeys ((pre ++ (k, v) :: post).map Prod.fst) := by
    unfold sortKeys
    rw [List.mem_insertionSort]
    simp
  unfold serializeArgs
  rw [if_neg h1, if_neg h2, hkeys]
  exact renderArgs_value_ne hne hother _ hsnd hkmem

/-! ## Helper lemmas: output shape of the hash -/

/-- The SHA-256 digest has 32 bytes. -/
lemma sha256_length (msg : List Nat) : (sha256 msg).length = 32 := by
  simp [sha256, wordBytes]

/-- Each byte produced by `wordBytes` is below 256. -/
lemma wordBytes_mem_lt (w : Nat) : ∀ x ∈ wordBytes w, x < 256 := by
  intro x hx
  simp only [wordBytes, List.mem_cons, List.not_mem_nil, or_false] at hx
  rcases hx with h | h | h | h <;> subst h <;> exact Nat.mod_lt _ (by omega)

/-- Each SHA-256 digest byte is below 256. -/
lemma sha256_mem_lt (msg : List Nat) : ∀ x ∈ sha256 msg, x < 256 := by
  intro x hx
  simp only [sha256, List.mem_append] at hx
  rcases hx with ((((((h | h) | h) | h) | h) | h) | h) | h <;> exact wordBytes_mem_lt _ x h

/-- Hex encoding doubles the length. -/
lemma hexEncode_length : ∀ l : List Nat, (hexEncode l).length = 2 * l.length := by
  intro l
  induction l with
  | nil => rfl
  | cons b rest ih => simp [hexEncode, ih]; omega

/-- Hex digits of nibbles are ASCII codes below 256. -/
lemma hexDigit_lt (n : Nat) (h : n < 16) : hexDigit n < 256 := by
  unfold hexDigit; split <;> omega

/-- Every byte of a hex encoding is below 256. -/
lemma hexEncode_mem_lt : ∀ l : List Nat, ∀ x ∈ hexEncode l, x < 256 := by
  intro l
  induction l with
  | nil => intro x hx; exact absurd hx (List.not_mem_nil x)
  | cons b rest ih =>
    intro x hx
    simp only [hexEncode, List.mem_cons] at hx
    rcases hx with h | h | h
    · subst h; exact hexDigit_lt _ (Nat.mod_lt _ (by omega))
    · subst h; exact hexDigit_lt _ (Nat.mod_lt _ (by omega))
    · exact ih x h

/-- The computed hash always has exactly 12 characters. -/
lemma hashDockerBuildConfig_length (content : Str) (args : List (Str × Str)) :
    (hashDockerBuildConfig content args).length = 12 := by
  simp [hashDockerBuildConfig, List.length_take, hexEncode_length, sha256_length]

/-- Every byte of the computed hash is below 256. -/
lemma hashDockerBuildConfig_mem_lt (content : Str) (args : List (Str × Str)) :
    ∀ x ∈ hashDockerBuildConfig content args, x < 256 := by
  intro x hx
  exact hexEncode_mem_lt _ x (List.take_subset 12 _ hx)

/-! ## Helper lemmas: the base-256 encoding -/

/-- Injectivity of `natFold` on equal-length lists of bytes. -/
lemma natFold_inj : ∀ l1 l2 : List Nat, l1.length = l2.length →
    (∀ x ∈ l1, x < 256) → (∀ x ∈ l2, x < 256) → natFold l1 = natFold l2 → l1 = l2 := by
  intro l1
  induction l1 with
  | nil =>
    intro l2 hlen _ _ _
    exact (List.length_eq_zero.mp hlen.symm).symm
  | cons d1 t1 ih =>
    intro l2 hlen hb1 hb2 hfold
    cases l2 with
    | nil => simp at hlen
    | cons d2 t2 =>
      simp only [natFold, List.foldr_cons] at hfold
      have hd1 : d1 < 256 := hb1 d1 (List.mem_cons_self _ _)
      have hd2 : d2 < 256 := hb2 d2 (List.mem_cons_self _ _)
      have hd : d1 = d2 ∧ natFold t1 = natFold t2 := by
        unfold natFold; omega
      rw [hd.1, ih t2 (by simpa using hlen)
        (fun x hx => hb1 x (List.mem_cons_of_mem _ hx))
        (fun x hx => hb2 x (List.mem_cons_of_mem _ hx)) hd.2]

/-- Bound: `natFold` of a byte list is below `256 ^ length`. -/
lemma natFold_lt : ∀ l : List Nat, (∀ x ∈ l, x < 256) → natFold l < 256 ^ l.length := by
  intro l
  induction l with
  | nil => intro _; simp [natFold]
  | cons d t ih =>
    intro hb
    have hd : d < 256 := hb d (List.mem_cons_self _ _)
    have ht : natFold t < 256 ^ t.length := ih (fun x hx => hb x (List.mem_cons_of_mem _ hx))
    simp only [natFold, List.foldr_cons, List.length_cons]
    calc d + 256 * (natFold t) < 256 * (natFold t + 1) := by omega
    _ ≤ 256 * 256 ^ t.length := Nat.mul_le_mul_left 256 ht
    _ = 256 ^ (t.length + 1) := by rw [Nat.pow_succ, Nat.mul_comm]

/-! ## Claim C1 -/

/-- C1: for every dockerfile content and every build-arg mapping,
`hashDockerBuildConfig` computes the same hash regardless of the order
in which the mapping is supplied: any two permutations of the same
duplicate-free key-value association list yield identical hash strings
(sort-before-hash). -/
theorem hashDockerBuildConfig_perm_invariant (content : Str)
    (l1 l2 : List (Str × Str)) (nd : (l1.map Prod.fst).Nodup) (p : l1.Perm l2) :
    hashDockerBuildConfig content l1 = hashDockerBuildConfig content l2 := by
  unfold hashDockerBuildConfig hashInput
  rw [serializeArgs_eq_of_perm p nd]

/-- Witness for C1 at a concrete two-entry mapping and its reversal. -/
theorem hashDockerBuildConfig_perm_invariant_witness :
    (([([1], [2]), ([3], [4])] : List (Str × Str)).map Prod.fst).Nodup ∧
    (([([1], [2]), ([3], [4])] : List (Str × Str)).Perm [([3], [4]), ([1], [2])]) ∧
    hashDockerBuildConfig [7] [([1], [2]), ([3], [4])] =
      hashDockerBuildConfig [7] [([3], [4]), ([1], [2])] :=
  ⟨by decide, by decide,
    hashDockerBuildConfig_perm_invariant [7] _ _ (by decide) (by decide)⟩

/-! ## Claim C2 -/

/-- Infinitely many naturals cannot map injectively below a bound. -/
lemma nat_pigeonhole (B : Nat) (g : Nat → Nat) (hg : ∀ n, g n < B) :
    ∃ m n : Nat, m ≠ n ∧ g m = g n := by
  obtain ⟨m, n, hmn, hf⟩ := Finite.exists_ne_map_eq_of_infinite
    (fun k : Nat => (⟨g k, hg k⟩ : Fin B))
  exact ⟨m, n, hmn, congrArg Fin.val hf⟩

/-- C2 (counterexample): the sensitivity half of the claim is false as
stated — a hash truncated to 12 hex characters cannot distinguish all
dockerfile contents, so there exist two different contents with equal
hashes (pigeonhole over the finitely many 12-character outputs). -/
theorem hashDockerBuildConfig_sensitivity_refuted :
    ¬ (∀ (c c2 : Str) (args : List (Str × Str)), c ≠ c2 →
        hashDockerBuildConfig c args ≠ hashDockerBuildConfig c2 args) := by
  intro h
  have hbound : ∀ n : Nat, natFold (hashDockerBuildConfig (List.replicate n 0) []) < 256 ^ 12 := by
    intro n
    have hlt := natFold_lt (hashDockerBuildConfig (List.replicate n 0) [])
      (hashDockerBuildConfig_mem_lt _ _)
    rw [hashDockerBuildConfig_length] at hlt
    exact hlt
  obtain ⟨m, n, hmn, hfold⟩ := nat_pigeonhole (256 ^ 12)
    (fun k => natFold (hashDockerBuildConfig (List.replicate k 0) [])) hbound
  have heq := natFold_inj _ _
    (by rw [hashDockerBuildConfig_length, hashDockerBuildConfig_length])
    (hashDockerBuildConfig_mem_lt _ _) (hashDockerBuildConfig_mem_lt _ _) hfold
  have hrep : List.replicate m 0 ≠ List.replicate n 0 := by
    intro hc
    apply hmn
    have := congrArg List.length hc
    simpa using this
  exact h _ _ [] hrep heq

/-- C2 (amended): repeated computation on the same content and args
yields the same hash; changing the dockerfile content, or any single
build-arg value, changes the serialized byte stream fed to SHA-256
(equal hashes then require a truncated-SHA-256 collision); and the hash
always has exactly 12 characters. -/
theorem hashDockerBuildConfig_deterministic_and_input_sensitive :
    (∀ (content : Str) (args : List (Str × Str)),
      hashDockerBuildConfig content args = hashDockerBuildConfig content args)
    ∧ (∀ (c c2 : Str) (args : List (Str × Str)), c ≠ c2 →
        hashInput c args ≠ hashInput c2 args)
    ∧ (∀ (content : Str) (pre post : List (Str × Str)) (k v v2 : Str),
        ((pre ++ (k, v) :: post).map Prod.fst).Nodup → v ≠ v2 →
        hashInput content (pre ++ (k, v) :: post) ≠ hashInput content (pre ++ (k, v2) :: post))
    ∧ (∀ (content : Str) (args : List (Str × Str)),
        (hashDockerBuildConfig content args).length = 12) := by
  refine ⟨fun _ _ => rfl, ?_, ?_, fun c a => hashDockerBuildConfig_length c a⟩
  · intro c c2 args hne he
    exact hne (List.append_cancel_right he)
  · intro content pre post k v v2 nd hvv he
    exact serializeArgs_value_sensitive pre post k v v2 nd hvv (List.append_cancel_left he)

/-- Witness for the amended C2: two distinct one-byte contents give
distinct hash inputs, and a one-entry map value change does too. -/
theorem hashDockerBuildConfig_deterministic_and_input_sensitive_witness :
    (([1] : Str) ≠ [2] ∧ hashInput [1] [] ≠ hashInput [2] []) ∧
    ((([] : List (Str × Str)) ++ ([5], [6]) :: []).map Prod.fst).Nodup ∧
    (([6] : Str) ≠ [7]) ∧
    hashInput [1] ([] ++ ([5], [6]) :: []) ≠ hashInput [1] ([] ++ ([5], [7]) :: []) :=
  ⟨⟨by decide, hashDockerBuildConfig_deterministic_and_input_sensitive.2.1 [1] [2] [] (by decide)⟩,
    by decide, by decide,
    hashDockerBuildConfig_deterministic_and_input_sensitive.2.2.1 [1] [] [] [5] [6] [7]
      (by decide) (by decide)⟩

/-! ## Claim C3 -/

/-- C3: in build mode every successful resolution returns exactly
`cpx/<target-name>:<hash>` with the hash computed from the dockerfile
content bytes and the build args; two resolutions that agree on target
name, dockerfile content and args — but may differ in platform, image
label, environment and rebuild flag — yield the same image reference. -/
theorem handleBuildMode_tag_form :
    (∀ (env : DockerEnv) (t : CITarget) (d : DockerConfig) (b : DockerBuildConfig)
      (pr : Str) (rb : Bool) (content img : Str),
      d.build = some b →
      env.fileContents (resolvePath pr b.dockerfile) = some content →
      (handleBuildMode env t d pr rb).result = .ok img →
      img = buildImageTag t.name (hashDockerBuildConfig content b.args))
    ∧ (∀ (env1 env2 : DockerEnv) (t1 t2 : CITarget) (d1 d2 : DockerConfig)
      (b1 b2 : DockerBuildConfig) (pr1 pr2 : Str) (rb1 rb2 : Bool) (content img1 img2 : Str),
      t1.name = t2.name → d1.build = some b1 → d2.build = some b2 → b1.args = b2.args →
      env1.fileContents (resolvePath pr1 b1.dockerfile) = some content →
      env2.fileContents (resolvePath pr2 b2.dockerfile) = some content →
      (handleBuildMode env1 t1 d1 pr1 rb1).result = .ok img1 →
      (handleBuildMode env2 t2 d2 pr2 rb2).result = .ok img2 →
      img1 = img2) := by
  have hform : ∀ (env : DockerEnv) (t : CITarget) (d : DockerConfig) (b : DockerBuildConfig)
      (pr : Str) (rb : Bool) (content img : Str),
      d.build = some b →
      env.fileContents (resolvePath pr b.dockerfile) = some content →
      (handleBuildMode env t d pr rb).result = .ok img →
      img = buildImageTag t.name (hashDockerBuildConfig content b.args) := by
    intro env t d b pr rb content img hb hf hres
    simp only [handleBuildMode, hb, hf] at hres
    split at hres
    · simp at hres; exact hres.symm
    · split at hres
      · simp at hres; exact hres.symm
      · split at hres
        · simp at hres; exact hres.symm
        · simp at hres
  refine ⟨hform, ?_⟩
  intro env1 env2 t1 t2 d1 d2 b1 b2 pr1 pr2 rb1 rb2 content img1 img2
    hname hb1 hb2 hargs hf1 hf2 hr1 hr2
  rw [hform env1 t1 d1 b1 pr1 rb1 content img1 hb1 hf1 hr1,
    hform env2 t2 d2 b2 pr2 rb2 content img2 hb2 hf2 hr2, hname, hargs]

/-- Witness for C3 at a concrete build-mode target with a cache hit. -/
theorem handleBuildMode_tag_form_witness :
    wDockerBuild.build = some wBuild ∧
    wDockerEnv.fileContents (resolvePath [] wBuild.dockerfile) = some (str "FROM x") ∧
    (handleBuildMode wDockerEnv wTargetBuild wDockerBuild [] false).result =
      .ok (buildImageTag (str "t") (hashDockerBuildConfig (str "FROM x") [])) ∧
    buildImageTag (str "t") (hashDockerBuildConfig (str "FROM x") []) =
      buildImageTag wTargetBuild.name (hashDockerBuildConfig (str "FROM x") wBuild.args) :=
  ⟨rfl, rfl, rfl,
    handleBuildMode_tag_form.1 wDockerEnv wTargetBuild wDockerBuild wBuild [] false
      (str "FROM x") _ rfl rfl rfl⟩

/-! ## Claim C5 -/

/-- C5: in build mode with rebuild false and the image already present
at the computed tag, `handleBuildMode` returns that tag with no build
invocation; conversely, a build is invoked only when rebuild is true or
the tag is absent. -/
theorem handleBuildMode_cache_hit (env : DockerEnv) (t : CITarget) (d : DockerConfig)
    (b : DockerBuildConfig) (pr content : Str)
    (hb : d.build = some b)
    (hf : env.fileContents (resolvePath pr b.dockerfile) = some content) :
    (env.imagePresent (buildImageTag t.name (hashDockerBuildConfig content b.args)) = true →
      handleBuildMode env t d pr false =
        ⟨.ok (buildImageTag t.name (hashDockerBuildConfig content b.args)), false⟩)
    ∧ (∀ rb : Bool, (handleBuildMode env t d pr rb).buildInvoked = true →
        rb = true ∨
        env.imagePresent (buildImageTag t.name (hashDockerBuildConfig content b.args)) = false) := by
  constructor
  · intro hpres
    simp only [handleBuildMode, hb, hf]
    rw [if_pos]
    simp [hpres]
  · intro rb hbi
    cases rb with
    | true => exact Or.inl rfl
    | false =>
      right
      by_contra hpres
      have hp : env.imagePresent (buildImageTag t.name (hashDockerBuildConfig content b.args))
          = true := by
        cases hv : env.imagePresent (buildImageTag t.name (hashDockerBuildConfig content b.args))
        · exact absurd hv hpres
        · rfl
      simp only [handleBuildMode, hb, hf] at hbi
      rw [if_pos] at hbi
      · simp at hbi
      · simp [hp]

/-- Witness for C5: concrete cache hit performs no build invocation. -/
theorem handleBuildMode_cache_hit_witness :
    wDockerBuild.build = some wBuild ∧
    wDockerEnv.fileContents (resolvePath [] wBuild.dockerfile) = some (str "FROM x") ∧
    wDockerEnv.imagePresent
      (buildImageTag wTargetBuild.name (hashDockerBuildConfig (str "FROM x") wBuild.args)) = true ∧
    handleBuildMode wDockerEnv wTargetBuild wDockerBuild [] false =
      ⟨.ok (buildImageTag wTargetBuild.name
        (hashDockerBuildConfig (str "FROM x") wBuild.args)), false⟩ :=
  ⟨rfl, rfl, rfl,
    (handleBuildMode_cache_hit wDockerEnv wTargetBuild wDockerBuild wBuild [] (str "FROM x")
      rfl rfl).1 rfl⟩

/-! ## Claim C4 -/

/-- C4: pull-mode policy behaviour — always pulls regardless of local
presence; never with an absent image errors without attempting a pull;
ifNotPresent (or unset) without rebuild pulls exactly when the image is
absent; a true rebuild flag forces a pull whenever the policy path
reaches the pull decision (always, ifNotPresent, unset, or never with
the image present); and every successful resolution returns the
configured image string unchanged. -/
theorem handlePullMode_policy :
    (∀ (env : DockerEnv) (d : DockerConfig) (rb : Bool), d.pullPolicy = str "always" →
      (handlePullMode env d rb).pullAttempted = true)
    ∧ (∀ (env : DockerEnv) (d : DockerConfig) (rb : Bool), d.pullPolicy = str "never" →
      env.imagePresent d.image = false →
      handlePullMode env d rb =
        ⟨.error (str "image " ++ d.image ++ str " not found locally and pullPolicy is never"),
          false⟩)
    ∧ (∀ (env : DockerEnv) (d : DockerConfig),
      (d.pullPolicy = str "ifNotPresent" ∨ d.pullPolicy = []) →
      (handlePullMode env d false).pullAttempted = !(env.imagePresent d.image))
    ∧ (∀ (env : DockerEnv) (d : DockerConfig),
      (d.pullPolicy = str "always" ∨ d.pullPolicy = str "ifNotPresent" ∨ d.pullPolicy = []) →
      (handlePullMode env d true).pullAttempted = true)
    ∧ (∀ (env : DockerEnv) (d : DockerConfig), d.pullPolicy = str "never" →
      env.imagePresent d.image = true →
      (handlePullMode env d true).pullAttempted = true)
    ∧ (∀ (env : DockerEnv) (d : DockerConfig) (rb : Bool) (img : Str),
      (handlePullMode env d rb).result = .ok img → img = d.image) := by
  have e1 : str "never" ≠ str "always" := by decide
  have e2 : str "ifNotPresent" ≠ str "always" := by decide
  have e3 : str "ifNotPresent" ≠ str "never" := by decide
  have e4 : ([] : Str) ≠ str "always" := by decide
  have e5 : ([] : Str) ≠ str "never" := by decide
  refine ⟨?_, ?_, ?_, ?_, ?_, ?_⟩
  · intro env d rb hp
    cases rb <;> cases hok : env.pullOk d.image <;>
      simp [handlePullMode, pullFinish, hp, hok]
  · intro env d rb hp habs
    simp [handlePullMode, pullFinish, hp, habs, e1]
  · intro env d hp
    rcases hp with hp | hp <;>
      cases hv : env.imagePresent d.image <;>
      cases hok : env.pullOk d.image <;>
      simp [handlePullMode, pullFinish, hp, hv, hok, e2, e3, e4, e5]
  · intro env d hp
    rcases hp with hp | hp | hp <;>
      cases hok : env.pullOk d.image <;>
      simp [handlePullMode, pullFinish, hp, hok, e2, e3, e4, e5]
  · intro env d hp hpres
    cases hok : env.pullOk d.image <;>
      simp [handlePullMode, pullFinish, hp, hpres, hok, e1]
  · intro env d rb img h
    simp only [handlePullMode, pullFinish] at h
    cases hok : env.pullOk d.image <;>
      rw [hok] at h <;> split_ifs at h <;> simp_all

/-- Witness for C4: pullPolicy never with the image absent errors
without attempting a pull. -/
theorem handlePullMode_policy_witness :
    wDockerPullNever.pullPolicy = str "never" ∧
    wDockerEnvAbsent.imagePresent wDockerPullNever.image = false ∧
    handlePullMode wDockerEnvAbsent wDockerPullNever false =
      ⟨.error (str "image " ++ wDockerPullNever.image ++
        str " not found locally and pullPolicy is never"), false⟩ :=
  ⟨rfl, rfl, handlePullMode_policy.2.1 wDockerEnvAbsent wDockerPullNever false rfl rfl⟩

/-! ## Claim C6 -/

/-- Every failing target outcome carries the failing target name in one
of the two wrapping messages of the build loop body. -/
lemma targetOutcome_error_shape (env : CIEnv) (pr : Str) (rb ex : Bool)
    (t : CITarget) (e : Str) (h : targetOutcome env pr rb ex t = .error e) :
    ∃ e0, e = str "failed to resolve Docker image for " ++ t.name ++ str ": " ++ e0 ∨
      e = str "failed to build target " ++ t.name ++ str ": " ++ e0 := by
  unfold targetOutcome at h
  by_cases hr : t.runner = str "native"
  · rw [if_pos hr] at h
    cases hnb : env.nativeBuild t with
    | error e1 =>
      rw [hnb] at h
      simp at h
      refine ⟨e1, Or.inr ?_⟩
      rw [← h]
      simp [List.append_assoc]
    | ok u => rw [hnb] at h; simp at h
  · rw [if_neg hr] at h
    cases hres : (resolveDockerImage env.docker t pr rb).result with
    | error e1 =>
      rw [hres] at h
      simp at h
      refine ⟨e1, Or.inl ?_⟩
      rw [← h]
      simp [List.append_assoc]
    | ok imgN =>
      rw [hres] at h
      simp only [] at h
      cases hdb : env.dockerRunBuild t imgN ex with
      | error e2 =>
        rw [hdb] at h
        simp at h
        refine ⟨e2, Or.inr ?_⟩
        rw [← h]
        simp [List.append_assoc]
      | ok u => rw [hdb] at h; simp at h

/-- C6: the build loop is strictly sequential — when every target before
`t` succeeds and `t` fails, the loop returns exactly the error of `t`
(wrapped with the name of `t`), having attempted exactly the targets up
to and including `t`, and none after it. -/
theorem buildLoop_first_failure (env : CIEnv) (pr : Str) (rb ex : Bool)
    (pre : List CITarget) (t : CITarget) (post : List CITarget) (e : Str)
    (hpre : ∀ t2 ∈ pre, targetOutcome env pr rb ex t2 = .ok ())
    (herr : targetOutcome env pr rb ex t = .error e) :
    buildLoop env pr rb ex (pre ++ t :: post) =
      (.error e, pre.map CITarget.name ++ [t.name]) ∧
    ∃ e0, e = str "failed to resolve Docker image for " ++ t.name ++ str ": " ++ e0 ∨
      e = str "failed to build target " ++ t.name ++ str ": " ++ e0 := by
  refine ⟨?_, targetOutcome_error_shape env pr rb ex t e herr⟩
  induction pre with
  | nil =>
    simp only [List.nil_append, buildLoop, herr, List.map_nil]
  | cons p pre ih =>
    have hp : targetOutcome env pr rb ex p = .ok () := hpre p (List.mem_cons_self _ _)
    have hrest := ih (fun t2 ht2 => hpre t2 (List.mem_cons_of_mem _ ht2))
    simp only [List.cons_append, buildLoop, hp, List.append_eq, hrest, List.map_cons]

/-- Witness for C6: a single failing native target aborts the loop with
the wrapped error and attempts only that target. -/
theorem buildLoop_first_failure_witness :
    (∀ t2 ∈ ([] : List CITarget), targetOutcome wCIEnvFail [] false false t2 = .ok ()) ∧
    targetOutcome wCIEnvFail [] false false wTargetNative =
      .error (str "failed to build target " ++ str "a" ++ str ": " ++ str "boom") ∧
    buildLoop wCIEnvFail [] false false ([] ++ wTargetNative :: []) =
      (.error (str "failed to build target " ++ str "a" ++ str ": " ++ str "boom"),
        ([] : List CITarget).map CITarget.name ++ [wTargetNative.name]) :=
  ⟨fun t2 ht2 => absurd ht2 (List.not_mem_nil t2), rfl,
    (buildLoop_first_failure wCIEnvFail [] false false [] wTargetNative [] _
      (fun t2 ht2 => absurd ht2 (List.not_mem_nil t2)) rfl).1⟩

/-! ## Claim C7 -/

/-- C7: requesting an existing name selects exactly that target — active
or not — with the warning flag exactly when it is inactive; a missing
name errors; an unfiltered run keeps exactly the active targets and
reports a skipped count equal to the number of inactive targets; and a
named run attempts exactly that one target (even an inactive one). -/
theorem runCIBuild_target_selection :
    (∀ (cfg : CIConfig) (name : Str) (t : CITarget) (sel : List CITarget) (sk : Nat) (w : Bool),
      name ≠ [] → findTarget name cfg.targets = some t →
      selectTargets cfg name = .ok (sel, sk, w) → sel = [t] ∧ w = !t.IsActive)
    ∧ (∀ (cfg : CIConfig) (name : Str), name ≠ [] → findTarget name cfg.targets = none →
      selectTargets cfg name =
        .error (str "target " ++ name ++ str " not found in cpx-ci.yaml"))
    ∧ (∀ (name : Str) (ts : List CITarget),
      findTarget name ts = none ↔ ∀ t ∈ ts, t.name ≠ name)
    ∧ (∀ (cfg : CIConfig) (sel : List CITarget) (sk : Nat) (w : Bool),
      selectTargets cfg [] = .ok (sel, sk, w) →
      (∀ t ∈ sel, t.IsActive = true) ∧ (∀ t ∈ cfg.targets, t.IsActive = true → t ∈ sel) ∧
      sk = (cfg.targets.filter (fun t => !t.IsActive)).length ∧ w = false)
    ∧ (∀ (env : CIEnv) (cfg : CIConfig) (name pr : Str) (t : CITarget) (rb ex : Bool),
      env.loadCI = .ok cfg → name ≠ [] → findTarget name cfg.targets = some t →
      env.mkdirOutputOk = true → env.projectRoot = .ok pr → env.mkdirCacheOk = true →
      env.mkdirTargetCacheOk t.name = true →
      (runCIBuild false env name rb ex).warnedInactive = !t.IsActive ∧
      (runCIBuild false env name rb ex).attempted = [t.name]) := by
  refine ⟨?_, ?_, ?_, ?_, ?_⟩
  · intro cfg name t sel sk w hname hfind hsel
    unfold selectTargets at hsel
    rw [if_pos hname, hfind] at hsel
    simp only [Except.ok.injEq, Prod.mk.injEq] at hsel
    exact ⟨hsel.1.symm, hsel.2.2.symm⟩
  · intro cfg name hname hfind
    unfold selectTargets
    rw [if_pos hname, hfind]
  · intro name ts
    induction ts with
    | nil => simp [findTarget]
    | cons t ts ih =>
      by_cases h : t.name = name
      · simp [findTarget, h]
      · simp [findTarget, h, ih]
  · intro cfg sel sk w hsel
    unfold selectTargets at hsel
    rw [if_neg (fun h => h rfl)] at hsel
    simp only [Except.ok.injEq, Prod.mk.injEq] at hsel
    obtain ⟨h1, h2, h3⟩ := hsel
    subst h1
    refine ⟨?_, ?_, ?_, h3.symm⟩
    · intro t ht
      exact (List.mem_filter.mp ht).2
    · intro t ht ha
      exact List.mem_filter.mpr ⟨ht, ha⟩
    · rw [← h2, List.countP_eq_length_filter]
  · intro env cfg name pr t rb ex hload hname hfind hmk1 hpr hmk2 hmk3
    have hsel : selectTargets cfg name = .ok ([t], 0, !t.IsActive) := by
      unfold selectTargets
      rw [if_pos hname, hfind]
    have hall : ([t].all fun x =>
        !(x.runner = str "docker" && x.docker.isSome) || env.mkdirTargetCacheOk x.name) = true := by
      simp [hmk3]
    cases hout : targetOutcome env pr rb ex t with
    | error e =>
      constructor <;>
        simp [runCIBuild, hload, hsel, hmk1, hpr, hmk2, hmk3, hall, buildLoop, hout]
    | ok u =>
      constructor <;>
        simp [runCIBuild, hload, hsel, hmk1, hpr, hmk2, hmk3, hall, buildLoop, hout]

/-- Witness for C7: requesting the inactive target b still selects and
attempts it, with the warning flag set. -/
theorem runCIBuild_target_selection_witness :
    wCIEnvInactive.loadCI = .ok ⟨[wTargetInactive], []⟩ ∧
    (str "b" : Str) ≠ [] ∧
    findTarget (str "b") [wTargetInactive] = some wTargetInactive ∧
    (runCIBuild false wCIEnvInactive (str "b") false false).warnedInactive = true ∧
    (runCIBuild false wCIEnvInactive (str "b") false false).attempted = [str "b"] :=
  ⟨rfl, by decide, rfl,
    (runCIBuild_target_selection.2.2.2.2 wCIEnvInactive ⟨[wTargetInactive], []⟩ (str "b") []
      wTargetInactive false false rfl (by decide) rfl rfl rfl rfl rfl).1,
    (runCIBuild_target_selection.2.2.2.2 wCIEnvInactive ⟨[wTargetInactive], []⟩ (str "b") []
      wTargetInactive false false rfl (by decide) rfl rfl rfl rfl rfl).2⟩

/-! ## Claim C9 -/

/-- C9: the process-wide guard — any run with the flag clear leaves the
flag set, and any run with the flag set returns immediately with a nil
error, without running the body (no config load, no warning, no skip
report, no target attempted). -/
theorem runCIBuild_guard :
    (∀ (env : CIEnv) (name : Str) (rb ex : Bool),
      (runCIBuild false env name rb ex).executedAfter = true)
    ∧ (∀ (env : CIEnv) (name : Str) (rb ex : Bool),
      runCIBuild true env name rb ex = ⟨true, false, .ok (), false, 0, []⟩) := by
  constructor
  · intro env name rb ex
    unfold runCIBuild
    rw [if_neg Bool.false_ne_true]
    repeat' split
    all_goals rfl
  · intro env name rb ex
    rfl

/-! ## Claim C10 -/

/-- C10: with no requested name and every configured target inactive
(including the vacuous no-targets case), the run fails with the
no-active-targets error instead of succeeding with zero targets. -/
theorem runCIBuild_no_active_targets (env : CIEnv) (cfg : CIConfig) (rb ex : Bool)
    (hload : env.loadCI = .ok cfg) (hinactive : ∀ t ∈ cfg.targets, t.IsActive = false) :
    (runCIBuild false env [] rb ex).result =
      .error (str "no active targets defined in cpx-ci.yaml") := by
  have hfilter : cfg.targets.filter (fun t => t.IsActive) = [] :=
    List.filter_eq_nil_iff.mpr (fun t ht => by simp [hinactive t ht])
  have hsel : selectTargets cfg [] =
      .ok ([], cfg.targets.countP (fun t => !t.IsActive), false) := by
    unfold selectTargets
    rw [if_neg (fun h => h rfl), hfilter]
  simp [runCIBuild, hload, hsel]

/-- Witness for C10: one inactive target yields the error. -/
theorem runCIBuild_no_active_targets_witness :
    wCIEnvInactive.loadCI = .ok ⟨[wTargetInactive], []⟩ ∧
    (∀ t ∈ ({ targets := [wTargetInactive], output := [] } : CIConfig).targets,
      t.IsActive = false) ∧
    (runCIBuild false wCIEnvInactive [] false false).result =
      .error (str "no active targets defined in cpx-ci.yaml") :=
  ⟨rfl, by decide,
    runCIBuild_no_active_targets wCIEnvInactive ⟨[wTargetInactive], []⟩ false false rfl
      (by decide)⟩

/-! ## Claim C8 -/

/-- C8: the removal core removes exactly the targets whose name is among
the requested names, keeps the remaining targets in their original
relative order (a sublist), and when nothing matches it returns a nil
error without invoking the save. -/
theorem runRemoveTarget_removes_exactly :
    (∀ (targets : List CITarget) (args : List Str) (save : List CITarget → Except Str Unit)
      (l : List CITarget),
      (runRemoveTargetCore targets args save).2 = some l →
      l.Sublist targets ∧ (∀ t ∈ targets, (t ∈ l ↔ t.name ∉ args)) ∧
      l = targets.filter (fun t => !decide (t.name ∈ args)))
    ∧ (∀ (targets : List CITarget) (args : List Str) (save : List CITarget → Except Str Unit),
      (∀ t ∈ targets, t.name ∉ args) →
      runRemoveTargetCore targets args save = (.ok (), none)) := by
  constructor
  · intro targets args save l h
    simp only [runRemoveTargetCore] at h
    by_cases hrem : ((targets.filter (fun t => decide (t.name ∈ args))).map CITarget.name) = []
    · rw [if_pos hrem] at h
      simp at h
    · rw [if_neg hrem] at h
      cases hs : save (targets.filter fun t => !decide (t.name ∈ args)) with
      | error e =>
        rw [hs] at h
        simp at h
        subst h
        refine ⟨List.filter_sublist _, ?_, rfl⟩
        intro t ht
        simp [List.mem_filter, ht]
      | ok u =>
        rw [hs] at h
        simp at h
        subst h
        refine ⟨List.filter_sublist _, ?_, rfl⟩
        intro t ht
        simp [List.mem_filter, ht]
  · intro targets args save hnone
    have hrem : targets.filter (fun t => decide (t.name ∈ args)) = [] :=
      List.filter_eq_nil_iff.mpr (fun t ht => by simp [hnone t ht])
    simp [runRemoveTargetCore, hrem]

/-- Witness for C8: removing b from the list a, b, c keeps a and c in
order. -/
theorem runRemoveTarget_removes_exactly_witness :
    (runRemoveTargetCore [wA, wB, wC] [str "b"] wSave).2 = some [wA, wC] ∧
    ([wA, wC].Sublist [wA, wB, wC] ∧
      (∀ t ∈ [wA, wB, wC], (t ∈ [wA, wC] ↔ t.name ∉ [str "b"])) ∧
      [wA, wC] = [wA, wB, wC].filter (fun t => !decide (t.name ∈ [str "b"]))) :=
  ⟨rfl,
    runRemoveTarget_removes_exactly.1 [wA, wB, wC] [str "b"] wSave [wA, wC] rfl⟩
